import Mathlib

/-!
Verification of the NSE delivery-breakout scanner (`src/nse_delivery.py`)
against its natural-language specification.

Shallow embedding conventions:
* Calendar dates are integers (day numbers); day `d` has weekday `d % 7`
  with `0 = Monday, …, 6 = Sunday`, matching Python's `date.weekday()`.
  `dt.date.today()` becomes an explicit `today : Int` parameter.
* A pandas float cell that may be NaN is `Option ℚ` (`none` = NaN/missing);
  pandas comparisons involving NaN are false, `3 * NaN = NaN`, and
  `groupby(...).mean()` skips NaN (an all-NaN group has mean NaN).
* The division producing the RATIO column can yield infinity (positive
  numerator over zero average), so ratios live in `PFloat`, a fragment of
  IEEE float values restricted to exact rationals plus `inf`/`ninf`/`nan`
  (the source never produces inexact binary floats that the claims depend
  on; all quantities in scope are decimal CSV fields modelled exactly).
* The on-disk per-date CSV cache is a map `Int → Option (List Row)` inside
  `FetchState`; a CSV round-trip is modelled as exact (the file stores the
  normalized frame and is read back unchanged).  `providerCalls` counts
  network interactions with the archives provider.
-/

/-- A pandas float value as used by the RATIO column: an exact rational,
positive/negative infinity, or NaN. -/
inductive PFloat where
  | ninf : PFloat
  | fin : ℚ → PFloat
  | inf : PFloat
  | nan : PFloat
deriving DecidableEq, Repr

/-- numpy/pandas rounding of a rational to the nearest integer,
half to even (banker's rounding), as used by `Series.round`. -/
def roundHalfEven (q : ℚ) : ℤ :=
  if q - ⌊q⌋ < 1/2 then ⌊q⌋
  else if q - ⌊q⌋ > 1/2 then ⌊q⌋ + 1
  else if ⌊q⌋ % 2 = 0 then ⌊q⌋ else ⌊q⌋ + 1

/-- `Series.round(2)` on a finite value: round to 2 decimal places,
half to even. -/
def round2 (q : ℚ) : ℚ := (roundHalfEven (q * 100) : ℚ) / 100

/-- `Series.round(2)` on a pandas float: infinities and NaN are unchanged. -/
def round2PF : PFloat → PFloat
  | PFloat.fin q => PFloat.fin (round2 q)
  | x => x

/-- Float division as performed by `result['DELIV_QTY'] / result['AVG_30_DELIV_QTY']`:
ordinary division for a nonzero denominator, signed infinity (or NaN for 0/0)
for a zero denominator. -/
def pdDiv (x a : ℚ) : PFloat :=
  if a ≠ 0 then PFloat.fin (x / a)
  else if x > 0 then PFloat.inf
  else if x < 0 then PFloat.ninf
  else PFloat.nan

/-- Division lifted to possibly-NaN operands: NaN propagates. -/
def pdDivOpt : Option ℚ → Option ℚ → PFloat
  | some x, some a => pdDiv x a
  | _, _ => PFloat.nan

/-- Pandas `>` on possibly-NaN floats: any comparison with NaN is false. -/
def pdGt : Option ℚ → Option ℚ → Bool
  | some x, some y => if x > y then true else false
  | _, _ => false

/-- The key order used by `sort_values(by='RATIO', ascending=False)`:
`ratioDescLe a b` holds when `a` may come before `b` in the descending
output (NaN keys are placed last, pandas' `na_position='last'`). -/
def ratioDescLe : PFloat → PFloat → Bool
  | _, PFloat.nan => true
  | PFloat.nan, _ => false
  | PFloat.inf, _ => true
  | _, PFloat.inf => false
  | _, PFloat.ninf => true
  | PFloat.ninf, _ => false
  | PFloat.fin a, PFloat.fin b => if a ≥ b then true else false

/-! ### Numeric coercion (`pd.to_numeric(..., errors='coerce')`) -/

/-- Value of a list of decimal digit characters. -/
def digitsVal (cs : List Char) : ℕ :=
  cs.foldl (fun n c => 10 * n + (c.toNat - 48)) 0

/-- Parse an unsigned decimal numeral (optionally with a fractional part).
Models the decimal fragment of float parsing used by
`pd.to_numeric(..., errors='coerce')`; anything else coerces to NaN. -/
def parseUnsigned (cs : List Char) : Option ℚ :=
  match cs.span Char.isDigit with
  | (ds, []) => if ds.isEmpty then none else some (digitsVal ds)
  | (ds, '.' :: fs) =>
      if fs.all Char.isDigit && !(ds.isEmpty && fs.isEmpty) then
        some ((digitsVal ds : ℚ) + (digitsVal fs : ℚ) / (10 ^ fs.length))
      else none
  | _ => none

/-- `pd.to_numeric(s, errors='coerce')` on one raw string cell: surrounding
whitespace is tolerated, an optional sign then a decimal numeral parses to
its exact value, and every other string (including `"N/A"` and `""`)
becomes NaN (`none`) rather than an error. -/
def parseNumeric (s : String) : Option ℚ :=
  let cs := ((s.toList.dropWhile (· = ' ')).reverse.dropWhile (· = ' ')).reverse
  match cs with
  | '-' :: rest => (parseUnsigned rest).map (fun q => -q)
  | '+' :: rest => parseUnsigned rest
  | _ => parseUnsigned cs

/-! ### Data model -/

/-- One row of the raw provider payload for a date (`sec_bhavdata_full_*.csv`
after column-name normalization): the fields the program touches, with the
numeric columns still raw strings, plus a date-like column that may conflict
with the requested date. -/
structure RawRow where
  symbol : String
  deliv_qty_raw : String
  ttl_trd_qnty_raw : String
  date_raw : Int
deriving DecidableEq, Repr

/-- One normalized daily record (a row of the cached/analyzed frame). -/
structure Row where
  symbol : String
  deliv_qty : Option ℚ
  ttl_trd_qnty : Option ℚ
  date : Int
deriving DecidableEq, Repr

/-- Normalization performed on a fresh download (lines 110–112 of the
source): coerce `DELIV_QTY` and `TTL_TRD_QNTY` with `to_numeric(errors='coerce')`
and stamp every row's `DATE` with the requested date, overriding `date_raw`. -/
def normalizeRows (date : Int) (raw : List RawRow) : List Row :=
  raw.map (fun r =>
    { symbol := r.symbol
      deliv_qty := parseNumeric r.deliv_qty_raw
      ttl_trd_qnty := parseNumeric r.ttl_trd_qnty_raw
      date := date })

/-- The ambient state of `get_delivery_data`: the per-date CSV cache under
`LOG_FOLDER` and a count of network interactions with the provider. -/
structure FetchState where
  cache : Int → Option (List Row)
  providerCalls : ℕ

/-- A provider: for a date, either the parsed raw payload (HTTP 200) or
`none` (non-200 status). -/
def Provider : Type := Int → Option (List RawRow)

/-- `get_delivery_data(date)` (lines 71–116): return the cached frame for
`date` when a cache entry exists (no provider contact); otherwise contact
the provider, and on success normalize, stamp the date, persist to the
cache and return the frame; on failure return `None` with no cache entry. -/
def get_delivery_data (provider : Provider) (date : Int) (st : FetchState) :
    Option (List Row) × FetchState :=
  match st.cache date with
  | some df => (some df, st)
  | none =>
    match provider date with
    | none => (none, { st with providerCalls := st.providerCalls + 1 })
    | some raw =>
        let df := normalizeRows date raw
        (some df,
         { cache := fun d => if d = date then some df else st.cache d
           providerCalls := st.providerCalls + 1 })

/-! ### Trading calendar (`get_last_trading_days`, lines 54–64) -/

/-- The latest weekday (Mon–Fri) not after `d`; one iteration of the
source's skip-weekend loop body. -/
def prevOrSelfWeekday (d : Int) : Int :=
  if d % 7 = 5 then d - 1
  else if d % 7 = 6 then d - 2
  else d

/-- The `n` weekdays at or before `current`, newest first. -/
def gatherDaysDesc : ℕ → Int → List Int
  | 0, _ => []
  | n + 1, current =>
      let c := prevOrSelfWeekday current
      c :: gatherDaysDesc n (c - 1)

/-- `get_last_trading_days(n)`: walk backward from `today - 1`, keep
weekdays until `n` are collected, return them sorted ascending.
`today` is the reference date (`dt.date.today()` in the source). -/
def get_last_trading_days (n : ℕ) (today : Int) : List Int :=
  (gatherDaysDesc n (today - 1)).reverse

/-! ### Breakout analysis (main section, lines 140–172) -/

/-- Line 143: keep only rows whose symbol is in the NIFTY 500 universe. -/
def final_df (univ : List String) (allRows : List Row) : List Row :=
  allRows.filter (fun r => univ.contains r.symbol)

/-- Line 147: the rows of the most recent trading day. -/
def yesterday_df (yesterday : Int) (fdf : List Row) : List Row :=
  fdf.filter (fun r => r.date == yesterday)

/-- The non-missing `DELIV_QTY` values of one symbol group. -/
def grpVals (fdf : List Row) (s : String) : List ℚ :=
  (fdf.filter (fun r => r.symbol == s)).filterMap (fun r => r.deliv_qty)

/-- `groupby('SYMBOL')['DELIV_QTY'].mean()` for one group: the mean of the
non-missing values, NaN when the group has no non-missing value. -/
def groupMean (fdf : List Row) (s : String) : Option ℚ :=
  let vs := grpVals fdf s
  if vs.isEmpty then none else some (vs.sum / vs.length)

/-- Lexicographic comparison of character lists by code point. -/
def lexLe : List Char → List Char → Bool
  | [], _ => true
  | _ :: _, [] => false
  | a :: as, b :: bs => if a = b then lexLe as bs else decide (a < b)

/-- Lexicographic symbol order, the ascending key order `groupby` uses. -/
def symbolLe (a b : String) : Prop := lexLe a.data b.data = true

instance : DecidableRel symbolLe := fun a b =>
  inferInstanceAs (Decidable (lexLe a.data b.data = true))

/-- Lines 150–156: the per-symbol mean frame (`groupby` sorts its keys
ascending, a stable sort modelled by insertion sort); one pair
`(SYMBOL, AVG_30_DELIV_QTY)` per distinct symbol. -/
def avg_delivery (fdf : List Row) : List (String × Option ℚ) :=
  (List.insertionSort symbolLe ((fdf.map (fun r => r.symbol)).dedup)).map
    (fun s => (s, groupMean fdf s))

/-- One row of the merged frame (lines 158–163). -/
structure MergedRow where
  symbol : String
  deliv_qty : Option ℚ
  avg_30_deliv_qty : Option ℚ
deriving DecidableEq, Repr

/-- Lines 158–163: `pd.merge(yesterday_df[['SYMBOL','DELIV_QTY']],
avg_delivery, on='SYMBOL', how='inner')`; the inner merge preserves the
order of the left (latest-day) keys, each matched against the right frame. -/
def merged (yd : List Row) (avg : List (String × Option ℚ)) : List MergedRow :=
  yd.flatMap (fun r =>
    ((avg.filter (fun p => p.1 == r.symbol)).map (fun p =>
      { symbol := r.symbol, deliv_qty := r.deliv_qty, avg_30_deliv_qty := p.2 })))

/-- Lines 165–167: keep rows with `DELIV_QTY > 3 * AVG_30_DELIV_QTY`
(pandas semantics: a NaN on either side makes the comparison false). -/
def result (m : List MergedRow) : List MergedRow :=
  m.filter (fun r => pdGt r.deliv_qty (r.avg_30_deliv_qty.map (fun a => 3 * a)))

/-- A row of the final report frame, with the RATIO column added. -/
structure OutRow where
  symbol : String
  deliv_qty : Option ℚ
  avg_30_deliv_qty : Option ℚ
  ratioVal : PFloat
deriving DecidableEq, Repr

/-- Line 171: `result['RATIO'] = (DELIV_QTY / AVG_30_DELIV_QTY).round(2)`. -/
def withRatio (r : MergedRow) : OutRow :=
  { symbol := r.symbol
    deliv_qty := r.deliv_qty
    avg_30_deliv_qty := r.avg_30_deliv_qty
    ratioVal := round2PF (pdDivOpt r.deliv_qty r.avg_30_deliv_qty) }

/-- The row order of `sort_values(by='RATIO', ascending=False)`: descending
by the RATIO key. -/
def outRowLe (a b : OutRow) : Prop := ratioDescLe a.ratioVal b.ratioVal = true

instance : DecidableRel outRowLe := fun a b =>
  inferInstanceAs (Decidable (ratioDescLe a.ratioVal b.ratioVal = true))

/-- Line 172: `result.sort_values(by='RATIO', ascending=False)` (a stable
sort on the small frames in scope, modelled by insertion sort; ties keep
their relative order — there is no symbol tie-break). -/
def sortedResult (res : List MergedRow) : List OutRow :=
  List.insertionSort outRowLe (res.map withRatio)

/-- The whole analysis of lines 140–172 as a function of the universe, the
concatenated multi-day frame, and the most recent trading day. -/
def findBreakouts (univ : List String) (allRows : List Row) (yesterday : Int) :
    List OutRow :=
  let fdf := final_df univ allRows
  sortedResult (result (merged (yesterday_df yesterday fdf) (avg_delivery fdf)))

/-- The fetch loop of lines 128–134: fetch each trading day in order,
threading the cache state, collecting the successful frames. -/
def fetchAll (provider : Provider) : List Int → FetchState → List (List Row) × FetchState
  | [], st => ([], st)
  | d :: ds, st =>
      let res := get_delivery_data provider d st
      let rest := fetchAll provider ds res.2
      (match res.1 with
       | some df => df :: rest.1
       | none => rest.1, rest.2)

/-- `trading_days[-1]`: the calendar-derived most recent trading day. -/
def lastTradingDay (today : Int) : Int :=
  (get_last_trading_days 30 today).getLastD 0

/-- The main execution (lines 123–193) after the universe fetch: derive the
30-day window, fetch every day, exit with no output (`none`) when no day
yielded data, otherwise run the breakout analysis on the concatenation,
partitioned on the calendar-derived latest day. -/
def runMain (provider : Provider) (univ : List String) (today : Int)
    (st : FetchState) : Option (List OutRow) :=
  let days := get_last_trading_days 30 today
  let all_data := (fetchAll provider days st).1
  if all_data.isEmpty then none
  else some (findBreakouts univ all_data.flatten (lastTradingDay today))

/-- A cache is well formed when every persisted frame for a date consists of
rows stamped with that date — true of every entry the program itself writes. -/
def wfCache (st : FetchState) : Prop :=
  ∀ d rows, st.cache d = some rows → ∀ r ∈ rows, r.date = d

/-! ### Calendar lemmas -/

theorem prevOrSelfWeekday_le (d : Int) : prevOrSelfWeekday d ≤ d := by
  unfold prevOrSelfWeekday
  split
  · omega
  · split
    · omega
    · omega

theorem prevOrSelfWeekday_weekday (d : Int) : prevOrSelfWeekday d % 7 < 5 := by
  unfold prevOrSelfWeekday
  split
  · omega
  · split
    · omega
    · omega

theorem mem_gatherDaysDesc_le {n : ℕ} {c x : Int} (h : x ∈ gatherDaysDesc n c) :
    x ≤ c := by
  induction n generalizing c with
  | zero => simp [gatherDaysDesc] at h
  | succ n ih =>
    simp only [gatherDaysDesc, List.mem_cons] at h
    rcases h with h | h
    · subst h; exact prevOrSelfWeekday_le c
    · have h1 := ih h
      have h2 := prevOrSelfWeekday_le c
      omega

theorem mem_gatherDaysDesc_weekday {n : ℕ} {c x : Int}
    (h : x ∈ gatherDaysDesc n c) : x % 7 < 5 := by
  induction n generalizing c with
  | zero => simp [gatherDaysDesc] at h
  | succ n ih =>
    simp only [gatherDaysDesc, List.mem_cons] at h
    rcases h with h | h
    · subst h; exact prevOrSelfWeekday_weekday c
    · exact ih h

theorem gatherDaysDesc_length (n : ℕ) (c : Int) :
    (gatherDaysDesc n c).length = n := by
  induction n generalizing c with
  | zero => rfl
  | succ n ih => simp [gatherDaysDesc, ih]

theorem gatherDaysDesc_pairwise (n : ℕ) (c : Int) :
    (gatherDaysDesc n c).Pairwise (fun a b => b < a) := by
  induction n generalizing c with
  | zero => simp [gatherDaysDesc]
  | succ n ih =>
    simp only [gatherDaysDesc, List.pairwise_cons]
    refine ⟨fun x hx => ?_, ih _⟩
    have := mem_gatherDaysDesc_le hx
    omega

/-- C2: for every positive `n` and reference date, `get_last_trading_days`
returns exactly `n` distinct weekday dates in strictly ascending order, each
strictly earlier than the reference date, never a Saturday or Sunday
(weekday `d % 7 ∈ {0,…,4}`, i.e. Monday–Friday). -/
theorem get_last_trading_days_spec (n : ℕ) (today : Int) (hn : 0 < n) :
    (get_last_trading_days n today).length = n
    ∧ (get_last_trading_days n today).Nodup
    ∧ (get_last_trading_days n today).Pairwise (fun a b => a < b)
    ∧ ∀ d ∈ get_last_trading_days n today, d < today ∧ d % 7 < 5 := by
  have hpw : (get_last_trading_days n today).Pairwise (fun a b => a < b) := by
    unfold get_last_trading_days
    rw [List.pairwise_reverse]
    exact gatherDaysDesc_pairwise n (today - 1)
  refine ⟨?_, ?_, hpw, ?_⟩
  · simp [get_last_trading_days, gatherDaysDesc_length]
  · exact hpw.imp Int.ne_of_lt
  · intro d hd
    rw [get_last_trading_days, List.mem_reverse] at hd
    have h1 := mem_gatherDaysDesc_le hd
    exact ⟨by omega, mem_gatherDaysDesc_weekday hd⟩

/-- Witness for C2 at `n = 5` with a Monday reference date (day 7): the
result is the preceding Monday–Friday, days 0–4. -/
theorem get_last_trading_days_spec_witness :
    0 < 5
    ∧ ((get_last_trading_days 5 7).length = 5
    ∧ (get_last_trading_days 5 7).Nodup
    ∧ (get_last_trading_days 5 7).Pairwise (fun a b => a < b)
    ∧ ∀ d ∈ get_last_trading_days 5 7, d < 7 ∧ d % 7 < 5) :=
  ⟨by decide, get_last_trading_days_spec 5 7 (by decide)⟩

/-! ### Cache and fetch properties -/

/-- C4: on a successful fetch for a requested date (cache miss, provider
success), every returned record's date field equals the requested date —
the raw payload's own date-like column is overridden. -/
theorem get_delivery_data_date_stamp (provider : Provider) (date : Int)
    (st : FetchState) (raw : List RawRow)
    (hc : st.cache date = none) (hp : provider date = some raw) :
    (get_delivery_data provider date st).1 = some (normalizeRows date raw)
    ∧ ∀ r ∈ normalizeRows date raw, r.date = date := by
  constructor
  · simp [get_delivery_data, hc, hp]
  · intro r hr
    simp only [normalizeRows, List.mem_map] at hr
    obtain ⟨rr, _, rfl⟩ := hr
    rfl

/-- Witness for C4: a concrete payload whose date-like column (999) conflicts
with the requested date 4; the returned rows are stamped with 4. -/
theorem get_delivery_data_date_stamp_witness :
    (get_delivery_data (fun _ => some [⟨"X", "10", "20", 999⟩]) 4
        ⟨fun _ => none, 0⟩).1
      = some (normalizeRows 4 [⟨"X", "10", "20", 999⟩])
    ∧ ∀ r ∈ normalizeRows 4 [⟨"X", "10", "20", 999⟩], r.date = 4 :=
  get_delivery_data_date_stamp (fun _ => some [⟨"X", "10", "20", 999⟩]) 4
    ⟨fun _ => none, 0⟩ [⟨"X", "10", "20", 999⟩] rfl rfl

/-- C5: after a first successful call of `get_delivery_data` for a date,
a second call for the same date returns exactly the same normalized frame
and leaves the state untouched — in particular the provider is not
contacted again (`providerCalls` is unchanged). -/
theorem get_delivery_data_idempotent (provider : Provider) (date : Int)
    (st : FetchState) (df : List Row)
    (h : (get_delivery_data provider date st).1 = some df) :
    get_delivery_data provider date (get_delivery_data provider date st).2
      = (some df, (get_delivery_data provider date st).2) := by
  unfold get_delivery_data at h ⊢
  cases hc : st.cache date with
  | some d =>
    simp only [hc] at h ⊢
    simpa using h
  | none =>
    cases hp : provider date with
    | none => simp [hc, hp] at h
    | some raw =>
      simp only [hc, hp] at h ⊢
      simp only [Option.some.injEq] at h
      subst h
      simp

/-- Witness for C5: a concrete provider and empty cache; the second call
returns the first call's frame with the state unchanged. -/
theorem get_delivery_data_idempotent_witness :
    get_delivery_data (fun _ => some [⟨"X", "10", "20", 999⟩]) 4
        ((get_delivery_data (fun _ => some [⟨"X", "10", "20", 999⟩]) 4
          ⟨fun _ => none, 0⟩).2)
      = (some (normalizeRows 4 [⟨"X", "10", "20", 999⟩]),
         (get_delivery_data (fun _ => some [⟨"X", "10", "20", 999⟩]) 4
          ⟨fun _ => none, 0⟩).2) :=
  get_delivery_data_idempotent (fun _ => some [⟨"X", "10", "20", 999⟩]) 4
    ⟨fun _ => none, 0⟩ (normalizeRows 4 [⟨"X", "10", "20", 999⟩]) rfl

/-! ### Analyzer lemmas -/

theorem pdGt_some {a b : Option ℚ} (h : pdGt a b = true) :
    ∃ x y, a = some x ∧ b = some y ∧ y < x := by
  cases a with
  | none => simp [pdGt] at h
  | some x =>
    cases b with
    | none => simp [pdGt] at h
    | some y => exact ⟨x, y, rfl, rfl, by simpa [pdGt] using h⟩

theorem mem_avg_delivery {fdf : List Row} {p : String × Option ℚ}
    (hp : p ∈ avg_delivery fdf) : p.2 = groupMean fdf p.1 := by
  unfold avg_delivery at hp
  obtain ⟨s, _, rfl⟩ := List.mem_map.mp hp
  rfl

theorem mem_merged {yd : List Row} {avg : List (String × Option ℚ)}
    {mr : MergedRow} (hm : mr ∈ merged yd avg) :
    ∃ r ∈ yd, ∃ p ∈ avg, p.1 = r.symbol ∧
      mr = { symbol := r.symbol, deliv_qty := r.deliv_qty,
             avg_30_deliv_qty := p.2 } := by
  unfold merged at hm
  rw [List.mem_flatMap] at hm
  obtain ⟨r, hr, hrm⟩ := hm
  obtain ⟨p, hp, rfl⟩ := List.mem_map.mp hrm
  have hmf := List.mem_filter.mp hp
  exact ⟨r, hr, p, hmf.1, by simpa using hmf.2, rfl⟩

theorem mem_findBreakouts {univ : List String} {allRows : List Row}
    {yesterday : Int} {o : OutRow}
    (ho : o ∈ findBreakouts univ allRows yesterday) :
    ∃ r ∈ allRows, univ.contains r.symbol = true ∧ r.date = yesterday
      ∧ r.symbol = o.symbol ∧ r.deliv_qty = o.deliv_qty
      ∧ o.avg_30_deliv_qty = groupMean (final_df univ allRows) o.symbol
      ∧ pdGt o.deliv_qty (o.avg_30_deliv_qty.map (fun a => 3 * a)) = true := by
  simp only [findBreakouts, sortedResult] at ho
  rw [List.mem_insertionSort _] at ho
  obtain ⟨mr, hmr, rfl⟩ := List.mem_map.mp ho
  unfold result at hmr
  obtain ⟨hmem, hgt⟩ := List.mem_filter.mp hmr
  obtain ⟨r, hr, p, hp, hps, hmreq⟩ := mem_merged hmem
  subst hmreq
  obtain ⟨hrf, hdate⟩ := List.mem_filter.mp hr
  obtain ⟨hrAll, hUniv⟩ := List.mem_filter.mp hrf
  have havg := mem_avg_delivery hp
  refine ⟨r, hrAll, hUniv, by simpa using hdate, rfl, rfl, ?_, hgt⟩
  show p.2 = groupMean (final_df univ allRows) r.symbol
  rw [havg, hps]

/-- C8: every row of the final candidate output names a symbol of the
universe, backed by at least one record on the most recent trading day, and
carries a computed (non-missing) trailing average; contrapositively, a
symbol outside the universe never appears, whatever its spike. -/
theorem candidate_set_invariant (univ : List String) (allRows : List Row)
    (yesterday : Int) (o : OutRow)
    (ho : o ∈ findBreakouts univ allRows yesterday) :
    o.symbol ∈ univ
    ∧ (∃ r ∈ allRows, r.symbol = o.symbol ∧ r.date = yesterday)
    ∧ ∃ a, o.avg_30_deliv_qty = some a := by
  obtain ⟨r, hrAll, hUniv, hdate, hsym, hdq, havg, hgt⟩ := mem_findBreakouts ho
  refine ⟨?_, ⟨r, hrAll, hsym, hdate⟩, ?_⟩
  · rw [← hsym]
    simpa using hUniv
  · obtain ⟨x, y, hx, hy, _⟩ := pdGt_some hgt
    cases hma : o.avg_30_deliv_qty with
    | none => rw [hma] at hy; simp at hy
    | some a => exact ⟨a, rfl⟩

/-- Witness for C8 at a concrete spike input: the single output row for
`"X"` is in the universe, has a latest-day record, and a computed average. -/
theorem candidate_set_invariant_witness :
    (⟨"X", some 3500, some 1000, PFloat.fin (7/2)⟩ : OutRow).symbol ∈ ["X"]
    ∧ (∃ r ∈ [(⟨"X", some 100, none, 1⟩ : Row), ⟨"X", some 150, none, 2⟩,
              ⟨"X", some 250, none, 3⟩, ⟨"X", some 3500, none, 4⟩],
        r.symbol = (⟨"X", some 3500, some 1000, PFloat.fin (7/2)⟩ : OutRow).symbol
        ∧ r.date = 4)
    ∧ ∃ a, (⟨"X", some 3500, some 1000, PFloat.fin (7/2)⟩ : OutRow).avg_30_deliv_qty
        = some a :=
  candidate_set_invariant ["X"]
    [⟨"X", some 100, none, 1⟩, ⟨"X", some 150, none, 2⟩,
     ⟨"X", some 250, none, 3⟩, ⟨"X", some 3500, none, 4⟩] 4
    ⟨"X", some 3500, some 1000, PFloat.fin (7/2)⟩ (by
      norm_num [findBreakouts, sortedResult, result, merged, avg_delivery,
        groupMean, grpVals, yesterday_df, final_df, withRatio, pdGt, pdDivOpt,
        pdDiv, round2PF, round2, roundHalfEven, symbolLe, lexLe, outRowLe,
        ratioDescLe, List.filterMap_cons, Option.some_ne_none])

/-- C7: a merged row whose trailing average is exactly 0 and whose
latest-day delivered quantity is positive always survives the threshold
filter, so its symbol appears in the candidate output. -/
theorem avg_zero_included (univ : List String) (allRows : List Row)
    (yesterday : Int) (mr : MergedRow) (q : ℚ)
    (hm : mr ∈ merged (yesterday_df yesterday (final_df univ allRows))
            (avg_delivery (final_df univ allRows)))
    (h0 : mr.avg_30_deliv_qty = some 0) (hq : mr.deliv_qty = some q)
    (hpos : 0 < q) :
    mr.symbol ∈ (findBreakouts univ allRows yesterday).map (fun o => o.symbol) := by
  have hres : mr ∈ result (merged (yesterday_df yesterday (final_df univ allRows))
      (avg_delivery (final_df univ allRows))) := by
    unfold result
    refine List.mem_filter.mpr ⟨hm, ?_⟩
    rw [hq, h0]
    simpa [pdGt] using hpos
  simp only [findBreakouts, sortedResult, List.mem_map]
  exact ⟨withRatio mr, (List.mem_insertionSort _).mpr (List.mem_map_of_mem _ hres), rfl⟩

/-- Witness for C7: symbol `"A"` has records −5 and 5, so its trailing
average is exactly 0; the positive latest-day quantity 5 puts `"A"` in the
candidate output. -/
theorem avg_zero_included_witness :
    (⟨"A", some 5, some 0⟩ : MergedRow).symbol ∈
      (findBreakouts ["A"]
        [⟨"A", some (-5), none, 1⟩, ⟨"A", some 5, none, 2⟩] 2).map
        (fun o => o.symbol) :=
  avg_zero_included ["A"]
    [⟨"A", some (-5), none, 1⟩, ⟨"A", some 5, none, 2⟩] 2
    ⟨"A", some 5, some 0⟩ 5 (by
      norm_num [merged, avg_delivery, groupMean, grpVals, yesterday_df,
        final_df, List.filterMap_cons, Option.some_ne_none, symbolLe, lexLe])
    rfl rfl (by norm_num)

/-! ### Missing-value handling (C3) -/

/-- The trailing average exactly as the specification words it: the mean of
`delivered_quantity` over all records for the symbol with a non-missing
value — missing values excluded from numerator and denominator alike — and
no value at all for a symbol with zero non-missing values. -/
def specMeanOpt (rows : List Row) (s : String) : Option ℚ :=
  let vals := rows.filterMap (fun r => if r.symbol = s then r.deliv_qty else none)
  if vals.length = 0 then none else some (vals.sum / vals.length)

theorem grpVals_eq (rows : List Row) (s : String) :
    grpVals rows s
      = rows.filterMap (fun r => if r.symbol = s then r.deliv_qty else none) := by
  unfold grpVals
  induction rows with
  | nil => rfl
  | cons r rs ih =>
    by_cases h : r.symbol = s
    · cases hd : r.deliv_qty <;>
        simp [List.filter_cons, List.filterMap_cons, h, hd, ih]
    · simp [List.filter_cons, List.filterMap_cons, h, ih]

theorem groupMean_eq_specMeanOpt (rows : List Row) (s : String) :
    groupMean rows s = specMeanOpt rows s := by
  unfold groupMean specMeanOpt
  rw [grpVals_eq]
  rcases hl : rows.filterMap (fun r => if r.symbol = s then r.deliv_qty else none)
    with _ | ⟨v, vs⟩ <;> simp [hl]

theorem groupMean_none_of_all_missing {rows : List Row} {s : String}
    (hall : ∀ r ∈ rows, r.symbol = s → r.deliv_qty = none) :
    groupMean rows s = none := by
  rw [groupMean_eq_specMeanOpt]
  unfold specMeanOpt
  have hnil : rows.filterMap (fun r => if r.symbol = s then r.deliv_qty else none)
      = [] := by
    rw [List.filterMap_eq_nil_iff]
    intro r hr
    by_cases h : r.symbol = s
    · simp [h, hall r hr h]
    · simp [h]
  simp [hnil]

/-- C3: (i) every merged row's trailing-average column equals the spec's
mean — over all of the symbol's records in the full flattened window,
missing values excluded from numerator and denominator alike; (ii) a raw
delivered-quantity cell of `"N/A"` or `""` coerces to missing while the
fetch still succeeds, returning the normalized frame whose
delivered-quantity column is the cellwise coercion; (iii) a symbol all of
whose delivered-quantity values are missing never reaches the final
candidate output. -/
theorem missing_value_handling (univ : List String) (allRows : List Row)
    (yesterday : Int) (mr : MergedRow) (s : String)
    (provider : Provider) (date : Int) (st : FetchState) (raw : List RawRow)
    (hm : mr ∈ merged (yesterday_df yesterday (final_df univ allRows))
            (avg_delivery (final_df univ allRows)))
    (hall : ∀ r ∈ final_df univ allRows, r.symbol = s → r.deliv_qty = none)
    (hc : st.cache date = none) (hp : provider date = some raw) :
    mr.avg_30_deliv_qty = specMeanOpt (final_df univ allRows) mr.symbol
    ∧ parseNumeric "N/A" = none
    ∧ parseNumeric "" = none
    ∧ (get_delivery_data provider date st).1 = some (normalizeRows date raw)
    ∧ (normalizeRows date raw).map (fun r => r.deliv_qty)
        = raw.map (fun rr => parseNumeric rr.deliv_qty_raw)
    ∧ s ∉ (findBreakouts univ allRows yesterday).map (fun o => o.symbol) := by
  refine ⟨?_, rfl, rfl, ?_, ?_, ?_⟩
  · obtain ⟨r, hr, p, hp2, hps, hmeq⟩ := mem_merged hm
    have havg := mem_avg_delivery hp2
    subst hmeq
    show p.2 = specMeanOpt (final_df univ allRows) r.symbol
    rw [havg, hps, groupMean_eq_specMeanOpt]
  · simp [get_delivery_data, hc, hp]
  · simp [normalizeRows]
  · intro hmem
    simp only [List.mem_map] at hmem
    obtain ⟨o, ho, hos⟩ := hmem
    obtain ⟨r, hrAll, hUniv, hdate, hsym, hdq, havg, hgt⟩ := mem_findBreakouts ho
    obtain ⟨x, y, hx, hy, _⟩ := pdGt_some hgt
    rw [havg, hos, groupMean_none_of_all_missing hall] at hy
    simp at hy

/-- Witness for C3: symbol `"Z"` has only missing values and is absent from
the output; symbol `"X"`'s merged average is the spec mean 1000; a payload
with `"N/A"` and `""` cells still fetches, coercing them to missing. -/
theorem missing_value_handling_witness :
    (⟨"X", some 3500, some 1000⟩ : MergedRow).avg_30_deliv_qty
      = specMeanOpt (final_df ["X", "Z"]
          [⟨"X", some 100, none, 1⟩, ⟨"X", some 150, none, 2⟩,
           ⟨"X", some 250, none, 3⟩, ⟨"X", some 3500, none, 4⟩,
           ⟨"Z", none, none, 1⟩, ⟨"Z", none, none, 4⟩])
          (⟨"X", some 3500, some 1000⟩ : MergedRow).symbol
    ∧ parseNumeric "N/A" = none
    ∧ parseNumeric "" = none
    ∧ (get_delivery_data (fun _ => some [⟨"Y", "N/A", "", 7⟩]) 4
        ⟨fun _ => none, 0⟩).1 = some (normalizeRows 4 [⟨"Y", "N/A", "", 7⟩])
    ∧ (normalizeRows 4 [⟨"Y", "N/A", "", 7⟩]).map (fun r => r.deliv_qty)
        = ([⟨"Y", "N/A", "", 7⟩] : List RawRow).map
            (fun rr => parseNumeric rr.deliv_qty_raw)
    ∧ "Z" ∉ (findBreakouts ["X", "Z"]
          [⟨"X", some 100, none, 1⟩, ⟨"X", some 150, none, 2⟩,
           ⟨"X", some 250, none, 3⟩, ⟨"X", some 3500, none, 4⟩,
           ⟨"Z", none, none, 1⟩, ⟨"Z", none, none, 4⟩] 4).map
          (fun o => o.symbol) :=
  missing_value_handling ["X", "Z"]
    [⟨"X", some 100, none, 1⟩, ⟨"X", some 150, none, 2⟩,
     ⟨"X", some 250, none, 3⟩, ⟨"X", some 3500, none, 4⟩,
     ⟨"Z", none, none, 1⟩, ⟨"Z", none, none, 4⟩] 4
    ⟨"X", some 3500, some 1000⟩ "Z"
    (fun _ => some [⟨"Y", "N/A", "", 7⟩]) 4 ⟨fun _ => none, 0⟩
    [⟨"Y", "N/A", "", 7⟩]
    (by
      norm_num +decide [merged, avg_delivery, groupMean, grpVals, yesterday_df,
        final_df, List.filterMap_cons, Option.some_ne_none, symbolLe, lexLe])
    (by decide) rfl rfl

/-- C1: the candidate filter is strict: with the trailing average at 1000
(records 100, 150, 250 and a latest-day 3500 over four days), the symbol
appears with ratio `7/2` (3.50 at two decimal places); with the same
average and a latest-day value of exactly 3000 (= 3 × 1000), the symbol is
excluded and the report is empty. -/
theorem strict_threshold_boundary :
    findBreakouts ["X"]
      [⟨"X", some 100, none, 1⟩, ⟨"X", some 150, none, 2⟩,
       ⟨"X", some 250, none, 3⟩, ⟨"X", some 3500, none, 4⟩] 4
      = [⟨"X", some 3500, some 1000, PFloat.fin (7/2)⟩]
    ∧ findBreakouts ["X"]
      [⟨"X", some 300, none, 1⟩, ⟨"X", some 300, none, 2⟩,
       ⟨"X", some 400, none, 3⟩, ⟨"X", some 3000, none, 4⟩] 4
      = [] := by
  constructor <;>
    norm_num [findBreakouts, sortedResult, result, merged, avg_delivery,
      groupMean, grpVals, yesterday_df, final_df, withRatio, pdGt, pdDivOpt,
      pdDiv, round2PF, round2, roundHalfEven, symbolLe, lexLe, outRowLe,
      ratioDescLe, List.filterMap_cons, Option.some_ne_none]

/-- C10: the output is not deduplicated by symbol — with two latest-day
records for `"A"` (each 700 against a trailing average of 200), the output
lists `"A"` twice, one row per latest-day record. -/
theorem duplicate_latest_day_rows :
    (findBreakouts ["A"]
      [⟨"A", some 0, none, 1⟩, ⟨"A", some 0, none, 1⟩, ⟨"A", some 0, none, 1⟩,
       ⟨"A", some 0, none, 1⟩, ⟨"A", some 0, none, 1⟩,
       ⟨"A", some 700, none, 2⟩, ⟨"A", some 700, none, 2⟩] 2).map
      (fun o => o.symbol) = ["A", "A"] := by
  norm_num [findBreakouts, sortedResult, result, merged, avg_delivery,
    groupMean, grpVals, yesterday_df, final_df, withRatio, pdGt, pdDivOpt,
    pdDiv, round2PF, round2, roundHalfEven, symbolLe, lexLe, outRowLe,
    ratioDescLe, List.filterMap_cons, Option.some_ne_none]

/-! ### Ordering of the report (C6) -/

theorem iteTF_eq_true {P : Prop} [Decidable P] :
    ((if P then true else false) = true) = P := by
  by_cases h : P <;> simp [h]

theorem ratioDescLe_trans {a b c : PFloat} (hab : ratioDescLe a b = true)
    (hbc : ratioDescLe b c = true) : ratioDescLe a c = true := by
  cases a <;> cases b <;> cases c <;>
    simp_all only [ratioDescLe, iteTF_eq_true, Bool.false_eq_true] <;>
    first | rfl | exact le_trans hbc hab

theorem ratioDescLe_total (a b : PFloat) :
    ratioDescLe a b = true ∨ ratioDescLe b a = true := by
  cases a <;> cases b <;>
    simp only [ratioDescLe, iteTF_eq_true] <;>
    first
      | exact Or.inl rfl
      | exact Or.inr rfl
      | exact Or.inl trivial
      | exact Or.inr trivial
      | exact le_total _ _

instance : IsTrans OutRow outRowLe :=
  ⟨fun _ _ _ hab hbc => ratioDescLe_trans hab hbc⟩

instance : IsTotal OutRow outRowLe :=
  ⟨fun a b => ratioDescLe_total a.ratioVal b.ratioVal⟩

/-- The ordering property the specification asserts for the candidate
sequence: ratio descending, and equal-ratio candidates ordered by symbol
ascending. -/
def descWithSymbolTiebreak (l : List OutRow) : Prop :=
  l.Pairwise (fun a b => outRowLe a b
    ∧ (a.ratioVal = b.ratioVal → symbolLe a.symbol b.symbol))

/-- C6 counterexample: with symbols `"B"` and `"A"` having identical
histories (three records of 100, then a latest-day 700... two equal
ratios), the output keeps the merged-frame order `B` before `A` — the code
applies no symbol tie-break, refuting the claimed symbol-ascending order. -/
theorem sort_tiebreak_counterexample :
    ¬ descWithSymbolTiebreak (findBreakouts ["A", "B"]
      [⟨"B", some 100, none, 1⟩, ⟨"A", some 100, none, 1⟩,
       ⟨"B", some 100, none, 2⟩, ⟨"A", some 100, none, 2⟩,
       ⟨"B", some 100, none, 3⟩, ⟨"A", some 100, none, 3⟩,
       ⟨"B", some 1000, none, 4⟩, ⟨"A", some 1000, none, 4⟩] 4) := by
  intro h
  rw [show findBreakouts ["A", "B"]
      [⟨"B", some 100, none, 1⟩, ⟨"A", some 100, none, 1⟩,
       ⟨"B", some 100, none, 2⟩, ⟨"A", some 100, none, 2⟩,
       ⟨"B", some 100, none, 3⟩, ⟨"A", some 100, none, 3⟩,
       ⟨"B", some 1000, none, 4⟩, ⟨"A", some 1000, none, 4⟩] 4
      = [⟨"B", some 1000, some 325, PFloat.fin (77/25)⟩,
         ⟨"A", some 1000, some 325, PFloat.fin (77/25)⟩] from by
    norm_num +decide [findBreakouts, sortedResult, result, merged,
      avg_delivery, groupMean, grpVals, yesterday_df, final_df, withRatio,
      pdGt, pdDivOpt, pdDiv, round2PF, round2, roundHalfEven, symbolLe,
      lexLe, outRowLe, ratioDescLe, List.filterMap_cons,
      Option.some_ne_none]] at h
  unfold descWithSymbolTiebreak at h
  have h1 := (List.pairwise_cons.mp h).1
    ⟨"A", some 1000, some 325, PFloat.fin (77/25)⟩ (by simp)
  have h2 := h1.2 rfl
  revert h2
  decide

/-- C6 (amended): the candidate sequence is sorted by ratio in descending
order and is a permutation of the filtered candidate rows; the sort is
stable and applies no symbol tie-break, so equal-ratio candidates keep
their merged-frame order rather than being reordered by symbol. -/
theorem findBreakouts_sorted_desc (univ : List String) (allRows : List Row)
    (yesterday : Int) :
    (findBreakouts univ allRows yesterday).Pairwise outRowLe
    ∧ List.Perm (findBreakouts univ allRows yesterday)
        ((result (merged (yesterday_df yesterday (final_df univ allRows))
          (avg_delivery (final_df univ allRows)))).map withRatio) := by
  constructor
  · exact List.sorted_insertionSort outRowLe _
  · exact List.perm_insertionSort outRowLe _

/-! ### Failure of the latest trading day (C9) -/

theorem get_delivery_data_cases (p : Provider) (d : Int) (st : FetchState) :
    (∃ df, st.cache d = some df ∧ get_delivery_data p d st = (some df, st))
    ∨ (st.cache d = none ∧ p d = none ∧
        get_delivery_data p d st
          = (none, { st with providerCalls := st.providerCalls + 1 }))
    ∨ (∃ raw, st.cache d = none ∧ p d = some raw ∧
        get_delivery_data p d st
          = (some (normalizeRows d raw),
             { cache := fun x => if x = d then some (normalizeRows d raw)
                 else st.cache x
               providerCalls := st.providerCalls + 1 })) := by
  unfold get_delivery_data
  cases hc : st.cache d with
  | some df => exact Or.inl ⟨df, rfl, rfl⟩
  | none =>
    cases hp : p d with
    | none => exact Or.inr (Or.inl ⟨rfl, rfl, rfl⟩)
    | some raw => exact Or.inr (Or.inr ⟨raw, rfl, rfl, rfl⟩)

theorem normalizeRows_dates {d : Int} {raw : List RawRow} {r : Row}
    (hr : r ∈ normalizeRows d raw) : r.date = d := by
  simp only [normalizeRows, List.mem_map] at hr
  obtain ⟨rr, _, rfl⟩ := hr
  rfl

theorem fetchAll_no_bad_date (p : Provider) (bad : Int) (hpbad : p bad = none) :
    ∀ (days : List Int) (st : FetchState), wfCache st → st.cache bad = none →
      ∀ df ∈ (fetchAll p days st).1, ∀ r ∈ df, r.date ≠ bad := by
  intro days
  induction days with
  | nil =>
    intro st _ _ df hdf
    simp [fetchAll] at hdf
  | cons d ds ih =>
    intro st hwf hcb df hdf r hr
    rcases get_delivery_data_cases p d st with
      ⟨df0, hc0, heq⟩ | ⟨hc0, hp0, heq⟩ | ⟨raw, hc0, hp0, heq⟩
    · simp only [fetchAll, heq] at hdf
      rw [List.mem_cons] at hdf
      rcases hdf with rfl | hdf
      · have hdate := hwf d df hc0 r hr
        intro hbad
        rw [hbad] at hdate
        rw [← hdate] at hc0
        rw [hc0] at hcb
        exact Option.noConfusion hcb
      · exact ih st hwf hcb df hdf r hr
    · simp only [fetchAll, heq] at hdf
      exact ih { st with providerCalls := st.providerCalls + 1 } hwf hcb df hdf r hr
    · have hdbad : d ≠ bad := by
        intro hbd
        rw [hbd, hpbad] at hp0
        exact Option.noConfusion hp0
      simp only [fetchAll, heq] at hdf
      rw [List.mem_cons] at hdf
      rcases hdf with rfl | hdf
      · rw [normalizeRows_dates hr]
        exact hdbad
      · refine ih _ ?_ ?_ df hdf r hr
        · intro d' rows h rr hrr
          have h2 : (if d' = d then some (normalizeRows d raw) else st.cache d')
              = some rows := h
          by_cases hd : d' = d
          · rw [if_pos hd] at h2
            injection h2 with h2
            subst h2
            rw [hd]
            exact normalizeRows_dates hrr
          · rw [if_neg hd] at h2
            exact hwf d' rows h2 rr hrr
        · show (if bad = d then some (normalizeRows d raw) else st.cache bad) = none
          rw [if_neg (fun hbd => hdbad hbd.symm), hcb]

/-- C9: when the fetch of the calendar-derived most recent trading day
fails (no cache entry and a provider failure for that date), and the run
still produces a report, the candidate set is empty — the latest day used
for partitioning is the calendar's last trading day, not the last date that
actually yielded data, so no record can match it however many qualifying
records the other days contain. -/
theorem latest_day_failure_empty (provider : Provider) (univ : List String)
    (today : Int) (st : FetchState) (out : List OutRow)
    (hwf : wfCache st)
    (hc : st.cache (lastTradingDay today) = none)
    (hp : provider (lastTradingDay today) = none)
    (hrun : runMain provider univ today st = some out) :
    out = [] := by
  simp only [runMain] at hrun
  by_cases he :
      ((fetchAll provider (get_last_trading_days 30 today) st).1).isEmpty
  · simp [he] at hrun
  · rw [Bool.not_eq_true] at he
    rw [he] at hrun
    simp only [Bool.false_eq_true, if_false, Option.some.injEq] at hrun
    have hyd : yesterday_df (lastTradingDay today)
        (final_df univ
          ((fetchAll provider (get_last_trading_days 30 today) st).1).flatten)
        = [] := by
      rw [yesterday_df, List.filter_eq_nil_iff]
      intro r hrf
      have hr2 : r ∈
          ((fetchAll provider (get_last_trading_days 30 today) st).1).flatten :=
        (List.mem_filter.mp hrf).1
      obtain ⟨df, hdf, hrdf⟩ := List.mem_flatten.mp hr2
      have hne := fetchAll_no_bad_date provider (lastTradingDay today) hp
        (get_last_trading_days 30 today) st hwf hc df hdf r hrdf
      simp [hne]
    rw [← hrun]
    simp [findBreakouts, hyd, merged, result, sortedResult]

set_option maxHeartbeats 2000000 in
set_option maxRecDepth 10000 in
/-- Witness for C9: a provider with data for day 0 but a failure for day 1
(the calendar's most recent trading day before the reference date 2), on an
empty cache: the run completes and its candidate set is empty. -/
theorem latest_day_failure_empty_witness : ([] : List OutRow) = [] :=
  latest_day_failure_empty
    (fun d => if d = 1 then none
      else if d = 0 then some [⟨"A", "5", "5", 0⟩] else none)
    ["A"] 2 ⟨fun _ => none, 0⟩ []
    (fun _ _ h => nomatch h)
    rfl
    (by
      norm_num [lastTradingDay, get_last_trading_days, gatherDaysDesc,
        prevOrSelfWeekday])
    (by
      norm_num [runMain, fetchAll, get_delivery_data, get_last_trading_days,
        gatherDaysDesc, prevOrSelfWeekday, lastTradingDay, normalizeRows,
        parseNumeric, parseUnsigned, digitsVal, findBreakouts, sortedResult,
        result, merged, avg_delivery, groupMean, grpVals, yesterday_df,
        final_df, withRatio, pdGt, pdDivOpt, pdDiv, round2PF, round2,
        roundHalfEven, symbolLe, lexLe, outRowLe, ratioDescLe,
        List.filterMap_cons, Option.some_ne_none])
